import Mathlib

/-!
# Verification of the TraceCleanupSolver cleanup-pipeline controller

Shallow embedding of `src/lib/solvers/TraceCleanupSolver/TraceCleanupSolver.ts`.
The controller is a resumable step-driven state machine sequencing three
cleanup phases (untangling via a sub-solver, turn minimization, L/Z-shape
balancing) over a mutable trace-set map keyed by stable trace identifiers.

External collaborators (the untangle sub-solver, the two per-trace geometry
transforms, the `is4PointRectangle` predicate, the base-solver lifecycle and
the input-problem renderer) are not part of the repository slice under
verification; they are modelled from the specification as opaque parameters
with the contracts the spec gives them.

JavaScript `Map` semantics (insertion order preserved, `set` on an existing
key keeps its position, construction from an entry list lets later duplicate
keys overwrite earlier values in place) are embedded as association lists.
Fallible operations (unchecked `!` assertions, unguarded index accesses)
return `Option`, with `none` marking a runtime crash.
-/

/-- A 2D point of a trace polyline.  Coordinates are rationals standing for
the JavaScript numbers of the source (all inputs of interest are exact). -/
structure Point where
  x : ℚ
  y : ℚ
  deriving DecidableEq

/-- A solved trace path, with the fields the cleanup controller reads:
the stable pair identifier, the global connectivity net id, and the
polyline geometry. -/
structure SolvedTracePath where
  mspPairId : String
  globalConnNetId : String
  tracePath : List Point
  deriving DecidableEq

/-- The identifiers of a list of traces, in order. -/
def traceIds (ts : List SolvedTracePath) : List String :=
  ts.map (·.mspPairId)

/-- JavaScript `Map.get`: first (and only) binding of the key, if present. -/
def jsGet {α : Type} (m : List (String × α)) (k : String) : Option α :=
  match m with
  | [] => none
  | (k', v) :: rest => if k' = k then some v else jsGet rest k

/-- JavaScript `Map.has`. -/
def jsHas {α : Type} (m : List (String × α)) (k : String) : Bool :=
  (jsGet m k).isSome

/-- JavaScript `Map.set`: overwrite in place if the key exists (keeping its
insertion position), otherwise append a new binding. -/
def jsSet {α : Type} (m : List (String × α)) (k : String) (v : α) :
    List (String × α) :=
  match m with
  | [] => [(k, v)]
  | (k', v') :: rest =>
    if k' = k then (k', v) :: rest else (k', v') :: jsSet rest k v

/-- JavaScript `Array.from(map.values())`: the values, in insertion order. -/
def jsValues {α : Type} (m : List (String × α)) : List α :=
  m.map Prod.snd

/-- `new Map(entries)`: sequentially `set` every entry into an empty map. -/
def jsFromList {α : Type} (l : List (String × α)) : List (String × α) :=
  l.foldl (fun m kv => jsSet m kv.1 kv.2) []

/-- JavaScript `Math.round(q * 100)` — round half toward positive infinity —
as it appears in the merge keys of `visualize`.  Computed as the floor
division ⌊(200·num + den) / (2·den)⌋ on the rational's normalized numerator
and denominator so that it evaluates by kernel reduction; the theorem
`jsRoundTimes100_eq_floor` below proves it equal to ⌊q·100 + 1/2⌋. -/
def jsRoundTimes100 (q : ℚ) : ℤ :=
  Int.fdiv (200 * q.num + (q.den : ℤ)) (2 * (q.den : ℤ))

/-- Modelled from the spec: the geometry predicate "is this polyline an
axis-aligned rectangle described by exactly 4 points?" (`is4PointRectangle`,
imported by the controller but outside this slice).  True exactly when the
path has four points that are the corners of a non-degenerate axis-aligned
rectangle traversed edge by edge. -/
def is4PointRectangle (path : List Point) : Bool :=
  match path with
  | [p1, p2, p3, p4] =>
    decide ((p1.x = p2.x ∧ p2.y = p3.y ∧ p3.x = p4.x ∧ p4.y = p1.y ∧
             p1.x ≠ p3.x ∧ p1.y ≠ p3.y) ∨
            (p1.y = p2.y ∧ p2.x = p3.x ∧ p3.y = p4.y ∧ p4.x = p1.x ∧
             p1.x ≠ p3.x ∧ p1.y ≠ p3.y))
  | _ => false

/-- A line of the debug scene graph. -/
structure Line where
  points : List Point
  strokeColor : String
  deriving DecidableEq

/-- The debug scene graph (`GraphicsObject`): layers are optional arrays,
filled in with empty arrays on demand by `visualize`.  Elements of layers the
controller never constructs are opaque. -/
structure GraphicsObject where
  lines : Option (List Line)
  points : Option (List Point)
  rects : Option (List Unit)
  circles : Option (List Unit)
  texts : Option (List Unit)
  deriving DecidableEq

/-- The constructor input of the `TraceCleanupSolver` (`TraceCleanupSolverInput`).
The input problem and label placements are opaque external data (`P`, `L`). -/
structure TraceCleanupSolverInput (P L : Type) where
  inputProblem : P
  allTraces : List SolvedTracePath
  allLabelPlacements : List L
  mergedLabelNetIdMap : List (String × List String)
  paddingBuffer : ℚ

/-- Modelled from the spec: the contract of the `UntangleTraceSubsolver` and
of the `BaseSolver` lifecycle it inherits — an opaque state type `σ`,
constructed from the controller input (with `allTraces` replaced by the live
trace set), advanced one unit of work per `step`, exposing `solved` / `failed`
flags, a retrievable output trace set once solved, and its own debug
visualization. -/
structure SubSolverSpec (P L σ : Type) where
  init : TraceCleanupSolverInput P L → σ
  step : σ → σ
  solved : σ → Bool
  failed : σ → Bool
  getOutput : σ → List SolvedTracePath
  visualize : σ → GraphicsObject

/-- The sub-solver has reached a terminal outcome. -/
def SubSolverSpec.terminal {P L σ : Type} (sub : SubSolverSpec P L σ)
    (u : σ) : Bool :=
  sub.solved u || sub.failed u

/-- Modelled from the spec: the external collaborators the controller calls —
the untangle sub-solver, the two pure per-trace transforms
(`minimizeTurnsWithFilteredLabels`, `balanceZShapes`), each taking the full
constructor input, the target identifier and the current trace-set snapshot
and returning one replacement trace, and the static input-problem renderer
`visualizeInputProblem` (its alpha options are constants at the call site and
are folded into the function). -/
structure TraceCleanupExternals (P L σ : Type) where
  subSolver : SubSolverSpec P L σ
  minimizeTurnsWithFilteredLabels :
    TraceCleanupSolverInput P L → String → List SolvedTracePath →
      SolvedTracePath
  balanceZShapes :
    TraceCleanupSolverInput P L → String → List SolvedTracePath →
      SolvedTracePath
  visualizeInputProblem : P → GraphicsObject

/-- The pipeline phases (`PipelineStep`). -/
inductive PipelineStep
  | minimizing_turns
  | balancing_l_shapes
  | untangling_traces
  deriving DecidableEq

/-- The mutable state of a `TraceCleanupSolver` instance: the constructor
input, the authoritative output trace list and trace map, the per-phase FIFO
id queue, the current phase, the id of the trace being processed, the active
sub-solver slot, and the `BaseSolver` terminal flags. -/
structure TraceCleanupSolver (P L σ : Type) where
  input : TraceCleanupSolverInput P L
  outputTraces : List SolvedTracePath
  traceIdQueue : List String
  tracesMap : List (String × SolvedTracePath)
  pipelineStep : PipelineStep
  activeTraceId : Option String
  activeSubSolver : Option σ
  solved : Bool
  failed : Bool

namespace TraceCleanupSolver

variable {P L σ : Type}

/-- The constructor: copy the input traces as the initial output, build the
trace map keyed by pair id, seed the queue with the input ids in input order,
and start in the `untangling_traces` phase with no active sub-solver. -/
def mkSolver (input : TraceCleanupSolverInput P L) :
    TraceCleanupSolver P L σ where
  input := input
  outputTraces := input.allTraces
  traceIdQueue := input.allTraces.map (·.mspPairId)
  tracesMap := jsFromList (input.allTraces.map fun t => (t.mspPairId, t))
  pipelineStep := .untangling_traces
  activeTraceId := none
  activeSubSolver := none
  solved := false
  failed := false

/-- `_runUntangleTracesStep`: instantiate the sub-solver from the constructor
input with `allTraces` replaced by the live trace-set values. -/
def _runUntangleTracesStep (E : TraceCleanupExternals P L σ)
    (s : TraceCleanupSolver P L σ) : TraceCleanupSolver P L σ :=
  let subInput := { s.input with allTraces := jsValues s.tracesMap }
  { s with activeSubSolver := some (E.subSolver.init subInput) }

/-- `_processTrace`: pop one id from the queue, record it as active, look the
trace up in the map (`none` marks the crash of the unchecked `!` access when
the id is missing), skip entirely if the polyline is a 4-point rectangle,
otherwise apply the phase-appropriate transform to the full snapshot and
write the single replacement entry back under the same key. -/
def _processTrace (E : TraceCleanupExternals P L σ)
    (s : TraceCleanupSolver P L σ) (phase : PipelineStep) :
    Option (TraceCleanupSolver P L σ) :=
  match s.traceIdQueue with
  | [] => none
  | targetId :: rest =>
    match jsGet s.tracesMap targetId with
    | none => none
    | some originalTrace =>
      let s1 := { s with traceIdQueue := rest, activeTraceId := some targetId }
      if is4PointRectangle originalTrace.tracePath then
        some s1
      else
        let allTraces := jsValues s.tracesMap
        let updatedTrace :=
          if phase = .minimizing_turns then
            E.minimizeTurnsWithFilteredLabels s.input targetId allTraces
          else
            E.balanceZShapes s.input targetId allTraces
        let newMap := jsSet s1.tracesMap targetId updatedTrace
        some { s1 with tracesMap := newMap, outputTraces := jsValues newMap }

/-- `_runMinimizeTurnsStep`: on an empty queue, advance to
`balancing_l_shapes` and reseed the queue from the original constructor
input's id list; otherwise process one trace. -/
def _runMinimizeTurnsStep (E : TraceCleanupExternals P L σ)
    (s : TraceCleanupSolver P L σ) : Option (TraceCleanupSolver P L σ) :=
  if s.traceIdQueue.isEmpty then
    some { s with pipelineStep := .balancing_l_shapes,
                  traceIdQueue := s.input.allTraces.map (·.mspPairId) }
  else
    _processTrace E s .minimizing_turns

/-- `_runBalanceLShapesStep`: on an empty queue, set the terminal `solved`
flag; otherwise process one trace. -/
def _runBalanceLShapesStep (E : TraceCleanupExternals P L σ)
    (s : TraceCleanupSolver P L σ) : Option (TraceCleanupSolver P L σ) :=
  if s.traceIdQueue.isEmpty then
    some { s with solved := true }
  else
    _processTrace E s .balancing_l_shapes

/-- `_step`: while a sub-solver is active, advance it one step and then check
its flags — on solved, adopt its output as the authoritative trace set and
rebuild the map; on failed, discard it and keep the prior trace set; either
way move to `minimizing_turns`.  With no active sub-solver, dispatch on the
current phase. -/
def _step (E : TraceCleanupExternals P L σ) (s : TraceCleanupSolver P L σ) :
    Option (TraceCleanupSolver P L σ) :=
  match s.activeSubSolver with
  | some u =>
    let u' := E.subSolver.step u
    if E.subSolver.solved u' then
      let output := E.subSolver.getOutput u'
      some { s with
        outputTraces := output,
        tracesMap := jsFromList (output.map fun t => (t.mspPairId, t)),
        activeSubSolver := none,
        pipelineStep := .minimizing_turns }
    else if E.subSolver.failed u' then
      some { s with activeSubSolver := none,
                    pipelineStep := .minimizing_turns }
    else
      some { s with activeSubSolver := some u' }
  | none =>
    match s.pipelineStep with
    | .untangling_traces => some (_runUntangleTracesStep E s)
    | .minimizing_turns => _runMinimizeTurnsStep E s
    | .balancing_l_shapes => _runBalanceLShapesStep E s

/-- Modelled from the spec: the public `BaseSolver.step` lifecycle wrapper —
a no-op once the solver is terminal (solved or failed), otherwise one call
to `_step`. -/
def step (E : TraceCleanupExternals P L σ) (s : TraceCleanupSolver P L σ) :
    Option (TraceCleanupSolver P L σ) :=
  if s.solved || s.failed then some s else _step E s

/-- `n` repeated calls of `step`, propagating a crash. -/
def stepN (E : TraceCleanupExternals P L σ) :
    Nat → TraceCleanupSolver P L σ → Option (TraceCleanupSolver P L σ)
  | 0, s => some s
  | n + 1, s => (step E s).bind (stepN E n)

/-- `getOutput`: the current output trace list. -/
def getOutput (s : TraceCleanupSolver P L σ) : List SolvedTracePath :=
  s.outputTraces

/-- The merge key of the first "ZENITH MERGE" block of `visualize`:
net id and the rounded y-coordinate of the first path point.  `none` marks
the crash of the unguarded `trace.tracePath[0].y` access on an empty path. -/
def zenithKey1 (t : SolvedTracePath) : Option String :=
  match t.tracePath with
  | [] => none
  | p :: _ =>
    some (t.globalConnNetId ++ "-" ++ toString (jsRoundTimes100 p.y))

/-- The merge key of the second "ZENITH MERGE" block of `visualize`: the
trace counts as horizontal when first and last path points share a
y-coordinate; the key is the net id with the rounded y (horizontal) or x
(otherwise) of the first point.  `none` marks the crash of the unguarded
first/last point accesses on an empty path. -/
def zenithKey2 (t : SolvedTracePath) : Option String :=
  match t.tracePath.head?, t.tracePath.getLast? with
  | some p0, some pl =>
    some (if p0.y = pl.y then
            t.globalConnNetId ++ "-y" ++ toString (jsRoundTimes100 p0.y)
          else
            t.globalConnNetId ++ "-x" ++ toString (jsRoundTimes100 p0.x))
  | _, _ => none

/-- One "ZENITH MERGE" fold of `visualize`: walk the trace list in order;
for each trace compute its key; a repeated key extends the stored trace's
path by the current path minus its first point, a fresh key stores a copy of
the trace. -/
def zenithMergeFold (key : SolvedTracePath → Option String)
    (m : List (String × SolvedTracePath)) :
    List SolvedTracePath → Option (List (String × SolvedTracePath))
  | [] => some m
  | t :: rest =>
    match key t with
    | none => none
    | some k =>
      let m' :=
        match jsGet m k with
        | some existing =>
          jsSet m k
            { existing with
                tracePath := existing.tracePath ++ t.tracePath.drop 1 }
        | none => jsSet m k t
      zenithMergeFold key m' rest

/-- `visualize`: while a sub-solver is active, delegate to its visualization
and leave the outer state untouched.  Otherwise render the dimmed input
problem, default-fill the layer arrays, push one line per current output
trace (the active trace highlighted red), and then run the two "ZENITH
MERGE" blocks, each of which irreversibly replaces `outputTraces` with the
values of its merge map.  `none` marks a runtime crash inside the merges. -/
def visualize (E : TraceCleanupExternals P L σ)
    (s : TraceCleanupSolver P L σ) :
    Option (GraphicsObject × TraceCleanupSolver P L σ) :=
  match s.activeSubSolver with
  | some u => some (E.subSolver.visualize u, s)
  | none =>
    let g0 := E.visualizeInputProblem s.input.inputProblem
    let newLines := s.outputTraces.map fun t =>
      { points := t.tracePath.map fun p => ⟨p.x, p.y⟩
        strokeColor :=
          if s.activeTraceId = some t.mspPairId then "red" else "blue"
        : Line }
    let g1 : GraphicsObject :=
      { lines := some (g0.lines.getD [] ++ newLines)
        points := some (g0.points.getD [])
        rects := some (g0.rects.getD [])
        circles := some (g0.circles.getD [])
        texts := some (g0.texts.getD []) }
    match zenithMergeFold zenithKey1 [] s.outputTraces with
    | none => none
    | some m1 =>
      let traces1 := jsValues m1
      match zenithMergeFold zenithKey2 [] traces1 with
      | none => none
      | some m2 =>
        some (g1, { s with outputTraces := jsValues m2 })

end TraceCleanupSolver

/-- An empty scene graph with no layers present, used as the output of the
opaque external renderers in concrete instantiations. -/
def emptyGraphics : GraphicsObject :=
  { lines := none, points := none, rects := none, circles := none,
    texts := none }

/-- A concrete sub-solver instance that reports `failed` at every state and
never `solved`, realizing the spec's always-failing sub-solver scenario. -/
def alwaysFailSub : SubSolverSpec Unit Unit Unit where
  init _ := ()
  step u := u
  solved _ := false
  failed _ := true
  getOutput _ := []
  visualize _ := emptyGraphics

/-- A concrete per-trace transform that returns the current trace of the
target identifier unchanged (and a default empty trace when the target is
absent): it satisfies the spec's transform contract. -/
def identityTransform (_ : TraceCleanupSolverInput Unit Unit)
    (target : String) (traces : List SolvedTracePath) : SolvedTracePath :=
  match traces.filter (fun t => t.mspPairId == target) with
  | t :: _ => t
  | [] => { mspPairId := target, globalConnNetId := "", tracePath := [] }

/-- The 4-point rectangle trace of the spec's test scenario. -/
def tRect : SolvedTracePath :=
  { mspPairId := "r", globalConnNetId := "N1",
    tracePath := [⟨0, 0⟩, ⟨0, 10⟩, ⟨10, 10⟩, ⟨10, 0⟩] }

/-- The 8-point zig-zag trace of the spec's test scenario. -/
def tZig : SolvedTracePath :=
  { mspPairId := "z", globalConnNetId := "N2",
    tracePath := [⟨0, 0⟩, ⟨1, 0⟩, ⟨1, 1⟩, ⟨2, 1⟩, ⟨2, 2⟩, ⟨3, 2⟩, ⟨3, 3⟩,
                  ⟨4, 3⟩] }

/-- A concrete two-trace input: one rectangle, one zig-zag. -/
def inpA : TraceCleanupSolverInput Unit Unit :=
  { inputProblem := (), allTraces := [tRect, tZig], allLabelPlacements := [],
    mergedLabelNetIdMap := [], paddingBuffer := 0 }

/-- Two horizontal traces on the same net and the same y-axis: prey for the
merge blocks inside `visualize`. -/
def tH1 : SolvedTracePath :=
  { mspPairId := "a", globalConnNetId := "N", tracePath := [⟨0, 0⟩, ⟨1, 0⟩] }

/-- Second same-net, same-axis horizontal trace. -/
def tH2 : SolvedTracePath :=
  { mspPairId := "b", globalConnNetId := "N", tracePath := [⟨1, 0⟩, ⟨2, 0⟩] }

/-- A two-trace input whose traces share a net and a horizontal axis. -/
def inpB : TraceCleanupSolverInput Unit Unit :=
  { inputProblem := (), allTraces := [tH1, tH2], allLabelPlacements := [],
    mergedLabelNetIdMap := [], paddingBuffer := 0 }

/-- The single trace the merge blocks of `visualize` leave behind on `inpB`:
the path of `tH2` minus its first point concatenated onto `tH1`. -/
def tHMerged : SolvedTracePath :=
  { mspPairId := "a", globalConnNetId := "N",
    tracePath := [⟨0, 0⟩, ⟨1, 0⟩, ⟨2, 0⟩] }

/-- A same-net, same-axis pair with distinct identifiers `p`, `q`. -/
def tG1 : SolvedTracePath :=
  { mspPairId := "p", globalConnNetId := "M", tracePath := [⟨0, 1⟩, ⟨2, 1⟩] }

/-- Second trace of the `p`/`q` pair. -/
def tG2 : SolvedTracePath :=
  { mspPairId := "q", globalConnNetId := "M", tracePath := [⟨2, 1⟩, ⟨5, 1⟩] }

/-- A two-trace input with unique identifiers sharing a net and an axis. -/
def inpC : TraceCleanupSolverInput Unit Unit :=
  { inputProblem := (), allTraces := [tG1, tG2], allLabelPlacements := [],
    mergedLabelNetIdMap := [], paddingBuffer := 0 }

/-- A trace whose polyline is empty. -/
def tEmpty : SolvedTracePath :=
  { mspPairId := "e", globalConnNetId := "N3", tracePath := [] }

/-- An input containing a trace with an empty polyline. -/
def inpD : TraceCleanupSolverInput Unit Unit :=
  { inputProblem := (), allTraces := [tEmpty], allLabelPlacements := [],
    mergedLabelNetIdMap := [], paddingBuffer := 0 }

/-- The state right after the first `step` on `inpA`: the sub-solver slot
has been filled. -/
def s1A : TraceCleanupSolver Unit Unit Unit :=
  { (TraceCleanupSolver.mkSolver inpA : TraceCleanupSolver Unit Unit Unit)
      with activeSubSolver := some () }

namespace TraceCleanupSolver

variable {P L σ : Type}

/-- Every queued identifier is a key of the trace map (the §3 invariant the
controller relies on when it pops the queue). -/
def QueueOk (s : TraceCleanupSolver P L σ) : Prop :=
  ∀ id ∈ s.traceIdQueue, jsHas s.tracesMap id = true

/-- Every identifier of the original constructor roster is a key of the
trace map. -/
def RosterOk (s : TraceCleanupSolver P L σ) : Prop :=
  ∀ id ∈ traceIds s.input.allTraces, jsHas s.tracesMap id = true

/-- `s` is reached from `s₀` by finitely many `step` calls, none crashing. -/
def Reachable (E : TraceCleanupExternals P L σ)
    (s₀ s : TraceCleanupSolver P L σ) : Prop :=
  ∃ n, stepN E n s₀ = some s

/-- A sub-solver can only be active while the phase is `untangling_traces`. -/
def SubInv (s : TraceCleanupSolver P L σ) : Prop :=
  ∀ u : σ, s.activeSubSolver = some u →
    s.pipelineStep = PipelineStep.untangling_traces

/-- Position of a phase in the fixed forward order of the pipeline. -/
def phaseIdx : PipelineStep → Nat
  | .untangling_traces => 0
  | .minimizing_turns => 1
  | .balancing_l_shapes => 2

/-- The sub-solver state the controller builds on entering the untangle
phase from the initial state. -/
def initialSubState (E : TraceCleanupExternals P L σ)
    (input : TraceCleanupSolverInput P L) : σ :=
  E.subSolver.init
    { input with
        allTraces :=
          jsValues (mkSolver (σ := σ) input).tracesMap }

/-- A `step` call that advances the active sub-solver by exactly one unit of
its own work: no queue pop, no transform, no change to the terminal flags;
the slot afterwards holds the stepped sub-solver, or is empty with the phase
moved to `minimizing_turns` when the stepped sub-solver reported a terminal
outcome. -/
def SubSolverUnit (E : TraceCleanupExternals P L σ)
    (s s' : TraceCleanupSolver P L σ) : Prop :=
  ∃ u, s.activeSubSolver = some u ∧
    s'.traceIdQueue = s.traceIdQueue ∧
    s'.activeTraceId = s.activeTraceId ∧
    s'.solved = s.solved ∧ s'.failed = s.failed ∧ s'.input = s.input ∧
    ((s'.activeSubSolver = some (E.subSolver.step u) ∧
      s'.pipelineStep = s.pipelineStep ∧
      s'.tracesMap = s.tracesMap ∧ s'.outputTraces = s.outputTraces) ∨
     (s'.activeSubSolver = none ∧
      s'.pipelineStep = PipelineStep.minimizing_turns))

/-- A `step` call that processes exactly one trace of the current per-trace
phase: one id popped, phase, slot and flags untouched, and every map entry
other than the popped id unchanged. -/
def PerTraceUnit (s s' : TraceCleanupSolver P L σ) : Prop :=
  s.activeSubSolver = none ∧
  (s.pipelineStep = PipelineStep.minimizing_turns ∨
   s.pipelineStep = PipelineStep.balancing_l_shapes) ∧
  ∃ id rest, s.traceIdQueue = id :: rest ∧
    s'.traceIdQueue = rest ∧
    s'.pipelineStep = s.pipelineStep ∧
    s'.activeSubSolver = none ∧
    s'.solved = s.solved ∧ s'.failed = s.failed ∧ s'.input = s.input ∧
    ∀ k, k ≠ id → jsGet s'.tracesMap k = jsGet s.tracesMap k

/-- A `step` call that performs exactly one phase-boundary bookkeeping
action — sub-solver instantiation, queue reseed, or setting the `solved`
flag — touching no trace geometry and stepping no sub-solver. -/
def BookkeepingUnit (E : TraceCleanupExternals P L σ)
    (s s' : TraceCleanupSolver P L σ) : Prop :=
  s.activeSubSolver = none ∧
  s'.tracesMap = s.tracesMap ∧ s'.outputTraces = s.outputTraces ∧
  s'.activeTraceId = s.activeTraceId ∧ s'.input = s.input ∧
  ((s.pipelineStep = PipelineStep.untangling_traces ∧
    s' = _runUntangleTracesStep E s) ∨
   (s.pipelineStep = PipelineStep.minimizing_turns ∧
    s.traceIdQueue = [] ∧
    s' = { s with pipelineStep := PipelineStep.balancing_l_shapes,
                  traceIdQueue := s.input.allTraces.map (·.mspPairId) }) ∨
   (s.pipelineStep = PipelineStep.balancing_l_shapes ∧
    s.traceIdQueue = [] ∧
    s' = { s with solved := true }))

end TraceCleanupSolver

/-- A concrete bundle of external collaborators for evaluating the
controller on closed inputs. -/
def testExternals : TraceCleanupExternals Unit Unit Unit where
  subSolver := alwaysFailSub
  minimizeTurnsWithFilteredLabels := identityTransform
  balanceZShapes := identityTransform
  visualizeInputProblem _ := emptyGraphics

/-- An input with no traces at all. -/
def inpE : TraceCleanupSolverInput Unit Unit :=
  { inputProblem := (), allTraces := [], allLabelPlacements := [],
    mergedLabelNetIdMap := [], paddingBuffer := 0 }

/-- The state reached from `mkSolver inpE` after two steps: the always-failing
sub-solver has been created and discarded, landing in `minimizing_turns`. -/
def sMinE : TraceCleanupSolver Unit Unit Unit :=
  { (TraceCleanupSolver.mkSolver inpE : TraceCleanupSolver Unit Unit Unit)
      with pipelineStep := PipelineStep.minimizing_turns }

/-- A `minimizing_turns` state over the rectangle/zig-zag input. -/
def sMinA : TraceCleanupSolver Unit Unit Unit :=
  { (TraceCleanupSolver.mkSolver inpA : TraceCleanupSolver Unit Unit Unit)
      with pipelineStep := PipelineStep.minimizing_turns }

/-- `sMinA` after its first per-trace step: the rectangle trace `r` has been
popped and short-circuited. -/
def sMinA1 : TraceCleanupSolver Unit Unit Unit :=
  { sMinA with traceIdQueue := ["z"], activeTraceId := some "r" }

/-! ## Lemmas about the JavaScript `Map` embedding -/

theorem jsGet_jsSet_self {α : Type} (m : List (String × α)) (k : String)
    (v : α) : jsGet (jsSet m k v) k = some v := by
  induction m with
  | nil => simp [jsSet, jsGet]
  | cons kv rest ih =>
    obtain ⟨k', v'⟩ := kv
    by_cases h : k' = k
    · subst h; simp [jsSet, jsGet]
    · simp [jsSet, jsGet, h, ih]

theorem jsGet_jsSet_ne {α : Type} (m : List (String × α)) (k k' : String)
    (v : α) (h : k' ≠ k) : jsGet (jsSet m k v) k' = jsGet m k' := by
  have h2 : ¬k = k' := fun hh => h hh.symm
  induction m with
  | nil => simp [jsSet, jsGet, h2]
  | cons kv rest ih =>
    obtain ⟨k0, v0⟩ := kv
    by_cases h0 : k0 = k
    · subst h0
      simp [jsSet, jsGet, h2]
    · simp only [jsSet, if_neg h0, jsGet]
      by_cases h1 : k0 = k'
      · simp [h1]
      · simp [h1, ih]

theorem jsHas_jsSet {α : Type} (m : List (String × α)) (k k' : String)
    (v : α) : jsHas (jsSet m k v) k' = true ↔ k' = k ∨ jsHas m k' = true := by
  by_cases h : k' = k
  · subst h; simp [jsHas, jsGet_jsSet_self]
  · simp [jsHas, jsGet_jsSet_ne m k k' v h, h]

theorem jsHas_mono_jsSet {α : Type} (m : List (String × α)) (k k' : String)
    (v : α) (h : jsHas m k' = true) : jsHas (jsSet m k v) k' = true :=
  (jsHas_jsSet m k k' v).mpr (Or.inr h)

theorem jsHas_foldl_set {α : Type} (l : List (String × α)) :
    ∀ (acc : List (String × α)) (k : String),
      jsHas (l.foldl (fun m kv => jsSet m kv.1 kv.2) acc) k = true ↔
        jsHas acc k = true ∨ k ∈ l.map Prod.fst := by
  induction l with
  | nil => simp
  | cons kv rest ih =>
    intro acc k
    rw [List.foldl_cons, ih, jsHas_jsSet]
    simp only [List.map_cons, List.mem_cons]
    tauto

theorem jsHas_jsFromList {α : Type} (l : List (String × α)) (k : String) :
    jsHas (jsFromList l) k = true ↔ k ∈ l.map Prod.fst := by
  rw [jsFromList, jsHas_foldl_set]
  simp [jsHas, jsGet]

theorem jsSet_mem {α : Type} (m : List (String × α)) (k : String) (v : α) :
    ∀ kv ∈ jsSet m k v, kv ∈ m ∨ kv.2 = v := by
  induction m with
  | nil => simp [jsSet]
  | cons kv0 rest ih =>
    obtain ⟨k0, v0⟩ := kv0
    by_cases h : k0 = k
    · subst h
      simp only [jsSet, if_pos rfl]
      intro kv hkv
      rcases List.mem_cons.mp hkv with h1 | h1
      · right; rw [h1]
      · left; exact List.mem_cons_of_mem _ h1
    · simp only [jsSet, if_neg h]
      intro kv hkv
      rcases List.mem_cons.mp hkv with h1 | h1
      · left; rw [h1]; exact List.mem_cons_self _ _
      · rcases ih kv h1 with h2 | h2
        · left; exact List.mem_cons_of_mem _ h2
        · right; exact h2

/-! ## Lemmas about iterated stepping -/

namespace TraceCleanupSolver

variable {P L σ : Type}

theorem stepN_zero (E : TraceCleanupExternals P L σ)
    (s : TraceCleanupSolver P L σ) : stepN E 0 s = some s := rfl

theorem stepN_succ (E : TraceCleanupExternals P L σ) (n : Nat)
    (s : TraceCleanupSolver P L σ) :
    stepN E (n + 1) s = (step E s).bind (stepN E n) := rfl

theorem stepN_add (E : TraceCleanupExternals P L σ) (a b : Nat)
    (s : TraceCleanupSolver P L σ) :
    stepN E (a + b) s = (stepN E a s).bind (stepN E b) := by
  induction a generalizing s with
  | zero => simp [stepN]
  | succ a ih =>
    have hab : a + 1 + b = (a + b) + 1 := by omega
    rw [hab]
    cases h : step E s with
    | none => simp [stepN_succ, h]
    | some t => simp [stepN_succ, h, ih]

theorem stepN_trans (E : TraceCleanupExternals P L σ) {a b : Nat}
    {s t r : TraceCleanupSolver P L σ} (h1 : stepN E a s = some t)
    (h2 : stepN E b t = some r) : stepN E (a + b) s = some r := by
  rw [stepN_add, h1]
  exact h2

theorem step_of_running (E : TraceCleanupExternals P L σ)
    {s : TraceCleanupSolver P L σ} (hs : s.solved = false)
    (hf : s.failed = false) : step E s = _step E s := by
  simp [step, hs, hf]

end TraceCleanupSolver

/-! ## Inversion and progress lemmas for `_processTrace` -/

namespace TraceCleanupSolver

variable {P L σ : Type}

theorem _processTrace_some (E : TraceCleanupExternals P L σ)
    (s : TraceCleanupSolver P L σ) (ph : PipelineStep)
    {targetId : String} {rest : List String} {t : SolvedTracePath}
    (hq : s.traceIdQueue = targetId :: rest)
    (ht : jsGet s.tracesMap targetId = some t) :
    ∃ s', _processTrace E s ph = some s' ∧
      s'.input = s.input ∧
      s'.traceIdQueue = rest ∧
      s'.pipelineStep = s.pipelineStep ∧
      s'.activeSubSolver = s.activeSubSolver ∧
      s'.activeTraceId = some targetId ∧
      s'.solved = s.solved ∧
      s'.failed = s.failed ∧
      (∀ k, jsHas s.tracesMap k = true → jsHas s'.tracesMap k = true) := by
  obtain ⟨inp, out, q, mp, ph0, act, sub, sv, fl⟩ := s
  simp only at hq ht
  subst hq
  simp only [_processTrace, ht]
  by_cases hrect : is4PointRectangle t.tracePath
  · rw [if_pos hrect]
    exact ⟨_, rfl, rfl, rfl, rfl, rfl, rfl, rfl, rfl, fun k hk => hk⟩
  · rw [if_neg hrect]
    refine ⟨_, rfl, rfl, rfl, rfl, rfl, rfl, rfl, rfl, fun k hk => ?_⟩
    exact jsHas_mono_jsSet _ _ _ _ hk

theorem _processTrace_inv (E : TraceCleanupExternals P L σ)
    (s s' : TraceCleanupSolver P L σ) (ph : PipelineStep)
    (h : _processTrace E s ph = some s') :
    ∃ targetId rest t, s.traceIdQueue = targetId :: rest ∧
      jsGet s.tracesMap targetId = some t ∧
      s'.input = s.input ∧
      s'.traceIdQueue = rest ∧
      s'.pipelineStep = s.pipelineStep ∧
      s'.activeSubSolver = s.activeSubSolver ∧
      s'.activeTraceId = some targetId ∧
      s'.solved = s.solved ∧
      s'.failed = s.failed ∧
      ((is4PointRectangle t.tracePath = true ∧
        s'.tracesMap = s.tracesMap ∧ s'.outputTraces = s.outputTraces) ∨
       (is4PointRectangle t.tracePath = false ∧
        ∃ u, s'.tracesMap = jsSet s.tracesMap targetId u ∧
          s'.outputTraces = jsValues s'.tracesMap)) := by
  obtain ⟨inp, out, q, mp, ph0, act, sub, sv, fl⟩ := s
  cases q with
  | nil => simp [_processTrace] at h
  | cons targetId rest =>
    cases ht : jsGet mp targetId with
    | none => simp [_processTrace, ht] at h
    | some t =>
      refine ⟨targetId, rest, t, rfl, ht, ?_⟩
      simp only [_processTrace, ht] at h
      by_cases hrect : is4PointRectangle t.tracePath
      · rw [if_pos hrect] at h
        obtain rfl := Option.some.inj h
        simp [hrect]
      · rw [if_neg hrect] at h
        obtain rfl := Option.some.inj h
        refine ⟨rfl, rfl, rfl, rfl, rfl, rfl, rfl, Or.inr ?_⟩
        exact ⟨Bool.of_not_eq_true hrect, _, rfl, rfl⟩

end TraceCleanupSolver

/-! ## Draining a per-trace phase -/

namespace TraceCleanupSolver

variable {P L σ : Type}

theorem _step_dispatch_process (E : TraceCleanupExternals P L σ)
    (s : TraceCleanupSolver P L σ) {targetId : String} {rest : List String}
    (hsub : s.activeSubSolver = none)
    (hph : s.pipelineStep ≠ PipelineStep.untangling_traces)
    (hq : s.traceIdQueue = targetId :: rest) :
    _step E s = _processTrace E s s.pipelineStep := by
  obtain ⟨inp, out, q, mp, ph0, act, sub, sv, fl⟩ := s
  simp only at hsub hq ⊢
  subst hsub
  subst hq
  cases ph0 with
  | untangling_traces => exact absurd rfl hph
  | minimizing_turns => simp [_step, _runMinimizeTurnsStep]
  | balancing_l_shapes => simp [_step, _runBalanceLShapesStep]

theorem step_reseed (E : TraceCleanupExternals P L σ)
    (s : TraceCleanupSolver P L σ) (h1 : s.activeSubSolver = none)
    (h2 : s.pipelineStep = PipelineStep.minimizing_turns)
    (h3 : s.traceIdQueue = []) (hs : s.solved = false)
    (hf : s.failed = false) :
    step E s = some { s with
      pipelineStep := PipelineStep.balancing_l_shapes,
      traceIdQueue := s.input.allTraces.map (·.mspPairId) } := by
  obtain ⟨inp, out, q, mp, ph0, act, sub, sv, fl⟩ := s
  simp only at h1 h2 h3 hs hf ⊢
  subst h1; subst h2; subst h3; subst hs; subst hf
  simp [step, _step, _runMinimizeTurnsStep]

theorem step_setSolved (E : TraceCleanupExternals P L σ)
    (s : TraceCleanupSolver P L σ) (h1 : s.activeSubSolver = none)
    (h2 : s.pipelineStep = PipelineStep.balancing_l_shapes)
    (h3 : s.traceIdQueue = []) (hs : s.solved = false)
    (hf : s.failed = false) :
    step E s = some { s with solved := true } := by
  obtain ⟨inp, out, q, mp, ph0, act, sub, sv, fl⟩ := s
  simp only at h1 h2 h3 hs hf ⊢
  subst h1; subst h2; subst h3; subst hs; subst hf
  simp [step, _step, _runBalanceLShapesStep]

theorem drain_partial (E : TraceCleanupExternals P L σ) :
    ∀ (k : Nat) (s : TraceCleanupSolver P L σ),
      s.activeSubSolver = none → s.solved = false → s.failed = false →
      s.pipelineStep ≠ PipelineStep.untangling_traces →
      QueueOk s → k ≤ s.traceIdQueue.length →
      ∃ s', stepN E k s = some s' ∧
        s'.input = s.input ∧
        s'.pipelineStep = s.pipelineStep ∧
        s'.activeSubSolver = none ∧
        s'.solved = false ∧ s'.failed = false ∧
        s'.traceIdQueue = s.traceIdQueue.drop k ∧
        (∀ k', jsHas s.tracesMap k' = true → jsHas s'.tracesMap k' = true) := by
  intro k
  induction k with
  | zero =>
    intro s h1 h2 h3 _ _ _
    exact ⟨s, rfl, rfl, rfl, h1, h2, h3, rfl, fun _ h => h⟩
  | succ k ih =>
    intro s h1 h2 h3 h4 h5 h6
    cases hq : s.traceIdQueue with
    | nil => rw [hq] at h6; simp at h6
    | cons targetId rest =>
      have hhas : jsHas s.tracesMap targetId = true :=
        h5 _ (by rw [hq]; exact List.mem_cons_self _ _)
      have hhas' : (jsGet s.tracesMap targetId).isSome = true := hhas
      obtain ⟨t, ht⟩ := Option.isSome_iff_exists.mp hhas'
      obtain ⟨s1, hp, hin, hq1, hph1, hsub1, _, hsv1, hfl1, hmono⟩ :=
        _processTrace_some E s s.pipelineStep hq ht
      have hstep : step E s = some s1 := by
        rw [step_of_running E h2 h3, _step_dispatch_process E s h1 h4 hq, hp]
      have hq1len : k ≤ s1.traceIdQueue.length := by
        rw [hq1]
        have := h6
        rw [hq] at this
        simpa using Nat.le_of_succ_le_succ this
      obtain ⟨s2, hrun, hin2, hph2, hsub2, hsv2, hfl2, hq2, hmono2⟩ :=
        ih s1 (hsub1.trans h1) (hsv1.trans h2) (hfl1.trans h3)
          (by rw [hph1]; exact h4) (fun id hid => hmono id (h5 id (by
            rw [hq]
            exact List.mem_cons_of_mem _ (hq1 ▸ hid)))) hq1len
      refine ⟨s2, ?_, hin2.trans hin, hph2.trans hph1, hsub2, hsv2, hfl2, ?_,
        fun k' hk' => hmono2 k' (hmono k' hk')⟩
      · rw [stepN_succ, hstep]
        exact hrun
      · rw [hq2, hq1]
        exact List.drop_succ_cons.symm

theorem run_from_minimizing (E : TraceCleanupExternals P L σ)
    (s : TraceCleanupSolver P L σ) (h1 : s.activeSubSolver = none)
    (h2 : s.pipelineStep = PipelineStep.minimizing_turns)
    (hs : s.solved = false) (hf : s.failed = false)
    (hq : QueueOk s) (hr : RosterOk s) :
    ∃ s', stepN E
        (s.traceIdQueue.length + 1 + (traceIds s.input.allTraces).length + 1)
        s = some s' ∧ s'.solved = true ∧ s'.failed = false := by
  obtain ⟨s2, hrun2, hin2, hph2, hsub2, hsv2, hfl2, hq2, hmono2⟩ :=
    drain_partial E s.traceIdQueue.length s h1 hs hf (by rw [h2]; simp) hq
      le_rfl
  have hq2' : s2.traceIdQueue = [] := by rw [hq2]; exact List.drop_length _
  have hstep3 := step_reseed E s2 hsub2 (hph2.trans h2) hq2' hsv2 hfl2
  have hrun3 : stepN E 1 s2 = some { s2 with
      pipelineStep := PipelineStep.balancing_l_shapes,
      traceIdQueue := s2.input.allTraces.map (·.mspPairId) } := by
    rw [stepN_succ, hstep3]; rfl
  set s3 : TraceCleanupSolver P L σ := { s2 with
      pipelineStep := PipelineStep.balancing_l_shapes,
      traceIdQueue := s2.input.allTraces.map (·.mspPairId) } with hs3
  have hq3 : QueueOk s3 := by
    intro id hid
    have : id ∈ traceIds s.input.allTraces := by
      simpa [hs3, traceIds, hin2] using hid
    exact hmono2 id (hr id this)
  have hq3len : s3.traceIdQueue.length = (traceIds s.input.allTraces).length := by
    simp [hs3, traceIds, hin2]
  obtain ⟨s4, hrun4, hin4, hph4, hsub4, hsv4, hfl4, hq4, _⟩ :=
    drain_partial E s3.traceIdQueue.length s3 hsub2 hsv2 hfl2 (by simp [hs3])
      hq3 le_rfl
  have hq4' : s4.traceIdQueue = [] := by rw [hq4]; exact List.drop_length _
  have hstep5 := step_setSolved E s4 hsub4 (by simp [hph4, hs3]) hq4' hsv4
    hfl4
  have hrun5 : stepN E 1 s4 = some { s4 with solved := true } := by
    rw [stepN_succ, hstep5]; rfl
  refine ⟨{ s4 with solved := true }, ?_, rfl, hfl4⟩
  have ha : stepN E (s.traceIdQueue.length + 1) s = some s3 :=
    stepN_trans E hrun2 hrun3
  have hb : stepN E (s.traceIdQueue.length + 1 +
      (traceIds s.input.allTraces).length) s = some s4 := by
    have := stepN_trans E ha (hq3len ▸ hrun4)
    exact this
  exact stepN_trans E hb hrun5

end TraceCleanupSolver

/-! ## The untangle phase and the sub-solver invariant -/

namespace TraceCleanupSolver

variable {P L σ : Type}

theorem _step_sub (E : TraceCleanupExternals P L σ)
    (s : TraceCleanupSolver P L σ) (u : σ)
    (hsub : s.activeSubSolver = some u) :
    _step E s =
      (if E.subSolver.solved (E.subSolver.step u) then
        some { s with
          outputTraces := E.subSolver.getOutput (E.subSolver.step u),
          tracesMap := jsFromList
            ((E.subSolver.getOutput (E.subSolver.step u)).map
              fun t => (t.mspPairId, t)),
          activeSubSolver := none,
          pipelineStep := PipelineStep.minimizing_turns }
      else if E.subSolver.failed (E.subSolver.step u) then
        some { s with activeSubSolver := none,
                      pipelineStep := PipelineStep.minimizing_turns }
      else
        some { s with activeSubSolver := some (E.subSolver.step u) }) := by
  obtain ⟨inp, out, q, mp, ph0, act, sub, sv, fl⟩ := s
  simp only at hsub
  subst hsub
  rfl

theorem _step_untangle (E : TraceCleanupExternals P L σ)
    (s : TraceCleanupSolver P L σ) (hsub : s.activeSubSolver = none)
    (hph : s.pipelineStep = PipelineStep.untangling_traces) :
    _step E s = some (_runUntangleTracesStep E s) := by
  obtain ⟨inp, out, q, mp, ph0, act, sub, sv, fl⟩ := s
  simp only at hsub hph
  subst hsub
  subst hph
  rfl

theorem subsolver_exit (E : TraceCleanupExternals P L σ) (u : σ)
    (s : TraceCleanupSolver P L σ) (hsub : s.activeSubSolver = some u)
    (hs : s.solved = false) (hf : s.failed = false)
    (hterm : E.subSolver.terminal (E.subSolver.step u) = true) :
    ∃ s', step E s = some s' ∧
      s'.activeSubSolver = none ∧
      s'.pipelineStep = PipelineStep.minimizing_turns ∧
      s'.input = s.input ∧ s'.traceIdQueue = s.traceIdQueue ∧
      s'.solved = false ∧ s'.failed = false ∧
      ((s'.tracesMap = s.tracesMap ∧ s'.outputTraces = s.outputTraces) ∨
       (∃ v, E.subSolver.solved v = true ∧
          s'.outputTraces = E.subSolver.getOutput v ∧
          s'.tracesMap = jsFromList ((E.subSolver.getOutput v).map
            fun t => (t.mspPairId, t)))) := by
  have hstep : step E s = _step E s := step_of_running E hs hf
  rw [_step_sub E s u hsub] at hstep
  by_cases hso : E.subSolver.solved (E.subSolver.step u) = true
  · rw [if_pos hso] at hstep
    exact ⟨_, hstep, rfl, rfl, rfl, rfl, hs, hf,
      Or.inr ⟨E.subSolver.step u, hso, rfl, rfl⟩⟩
  · have hfa : E.subSolver.failed (E.subSolver.step u) = true := by
      rcases Bool.or_eq_true_iff.mp hterm with h | h
      · exact absurd h hso
      · exact h
    rw [if_neg hso, if_pos hfa] at hstep
    exact ⟨_, hstep, rfl, rfl, rfl, rfl, hs, hf, Or.inl ⟨rfl, rfl⟩⟩

theorem subsolver_run (E : TraceCleanupExternals P L σ) :
    ∀ (j : Nat) (u : σ) (s : TraceCleanupSolver P L σ),
      s.activeSubSolver = some u → s.solved = false → s.failed = false →
      E.subSolver.terminal (E.subSolver.step^[j + 1] u) = true →
      ∃ m s', m ≤ j + 1 ∧ stepN E m s = some s' ∧
        s'.activeSubSolver = none ∧
        s'.pipelineStep = PipelineStep.minimizing_turns ∧
        s'.input = s.input ∧ s'.traceIdQueue = s.traceIdQueue ∧
        s'.solved = false ∧ s'.failed = false ∧
        ((s'.tracesMap = s.tracesMap ∧ s'.outputTraces = s.outputTraces) ∨
         (∃ v, E.subSolver.solved v = true ∧
            s'.outputTraces = E.subSolver.getOutput v ∧
            s'.tracesMap = jsFromList ((E.subSolver.getOutput v).map
              fun t => (t.mspPairId, t)))) := by
  intro j
  induction j with
  | zero =>
    intro u s hsub hs hf hterm
    rw [Function.iterate_one] at hterm
    obtain ⟨s', hstep, hrest⟩ := subsolver_exit E u s hsub hs hf hterm
    exact ⟨1, s', le_rfl, by rw [stepN_succ, hstep]; rfl, hrest⟩
  | succ j ih =>
    intro u s hsub hs hf hterm
    by_cases hterm1 : E.subSolver.terminal (E.subSolver.step u) = true
    · obtain ⟨s', hstep, hrest⟩ := subsolver_exit E u s hsub hs hf hterm1
      exact ⟨1, s', by omega, by rw [stepN_succ, hstep]; rfl, hrest⟩
    · have hso : E.subSolver.solved (E.subSolver.step u) = false := by
        cases h : E.subSolver.solved (E.subSolver.step u)
        · rfl
        · exact absurd (by simp [SubSolverSpec.terminal, h]) hterm1
      have hfa : E.subSolver.failed (E.subSolver.step u) = false := by
        cases h : E.subSolver.failed (E.subSolver.step u)
        · rfl
        · exact absurd (by simp [SubSolverSpec.terminal, h]) hterm1
      have hstep : step E s = some
          { s with activeSubSolver := some (E.subSolver.step u) } := by
        rw [step_of_running E hs hf, _step_sub E s u hsub,
          if_neg (by rw [hso]; simp), if_neg (by rw [hfa]; simp)]
      have hterm2 : E.subSolver.terminal
          (E.subSolver.step^[j + 1] (E.subSolver.step u)) = true := by
        rw [← Function.iterate_succ_apply]
        exact hterm
      obtain ⟨m, s', hm, hrun, hconj⟩ := ih (E.subSolver.step u)
        { s with activeSubSolver := some (E.subSolver.step u) } rfl hs hf
        hterm2
      refine ⟨m + 1, s', by omega, ?_, hconj⟩
      rw [stepN_succ, hstep]
      exact hrun

end TraceCleanupSolver

/-! ## Invariants along reachable states -/

namespace TraceCleanupSolver

variable {P L σ : Type}

theorem subInv_mkSolver (input : TraceCleanupSolverInput P L) :
    SubInv (mkSolver (σ := σ) input) := by
  intro u h
  simp [mkSolver] at h

theorem subInv_none {s : TraceCleanupSolver P L σ}
    (h : s.activeSubSolver = none) : SubInv s := by
  intro u hu
  rw [h] at hu
  cases hu

theorem _step_slot_none (E : TraceCleanupExternals P L σ)
    {s s' : TraceCleanupSolver P L σ} (hsub : s.activeSubSolver = none)
    (hph : s.pipelineStep ≠ PipelineStep.untangling_traces)
    (h : _step E s = some s') : s'.activeSubSolver = none := by
  obtain ⟨inp, out, q, mp, ph0, act, sub, sv, fl⟩ := s
  simp only at hsub hph h
  subst hsub
  cases ph0 with
  | untangling_traces => exact absurd rfl hph
  | minimizing_turns =>
    simp only [_step, _runMinimizeTurnsStep] at h
    split at h
    · obtain rfl := Option.some.inj h; rfl
    · obtain ⟨_, _, _, _, _, _, _, _, hsub', _, _, _, _⟩ :=
        _processTrace_inv E _ s' _ h
      exact hsub'
  | balancing_l_shapes =>
    simp only [_step, _runBalanceLShapesStep] at h
    split at h
    · obtain rfl := Option.some.inj h; rfl
    · obtain ⟨_, _, _, _, _, _, _, _, hsub', _, _, _, _⟩ :=
        _processTrace_inv E _ s' _ h
      exact hsub'

theorem subInv_step (E : TraceCleanupExternals P L σ)
    {s s' : TraceCleanupSolver P L σ} (hinv : SubInv s)
    (h : step E s = some s') : SubInv s' := by
  by_cases hsf : (s.solved || s.failed) = true
  · rw [step, if_pos hsf] at h
    obtain rfl := Option.some.inj h
    exact hinv
  · rw [step, if_neg hsf] at h
    cases hsub : s.activeSubSolver with
    | some u =>
      have hph := hinv u hsub
      rw [_step_sub E s u hsub] at h
      by_cases h1 : E.subSolver.solved (E.subSolver.step u) = true
      · rw [if_pos h1] at h
        obtain rfl := Option.some.inj h
        exact subInv_none rfl
      · rw [if_neg h1] at h
        by_cases h2 : E.subSolver.failed (E.subSolver.step u) = true
        · rw [if_pos h2] at h
          obtain rfl := Option.some.inj h
          exact subInv_none rfl
        · rw [if_neg h2] at h
          obtain rfl := Option.some.inj h
          intro v _
          exact hph
    | none =>
      cases hph : s.pipelineStep with
      | untangling_traces =>
        rw [_step_untangle E s hsub hph] at h
        obtain rfl := Option.some.inj h
        intro v _
        simpa [_runUntangleTracesStep] using hph
      | minimizing_turns =>
        exact subInv_none (_step_slot_none E hsub (by rw [hph]; simp) h)
      | balancing_l_shapes =>
        exact subInv_none (_step_slot_none E hsub (by rw [hph]; simp) h)

theorem stepN_subInv (E : TraceCleanupExternals P L σ) :
    ∀ (n : Nat) (s s' : TraceCleanupSolver P L σ), SubInv s →
      stepN E n s = some s' → SubInv s' := by
  intro n
  induction n with
  | zero =>
    intro s s' h hs
    obtain rfl := Option.some.inj hs
    exact h
  | succ n ih =>
    intro s s' h hs
    rw [stepN_succ] at hs
    cases hstep : step E s with
    | none => rw [hstep] at hs; cases hs
    | some t =>
      rw [hstep, Option.some_bind] at hs
      exact ih t s' (subInv_step E h hstep) hs

theorem reachable_subInv (E : TraceCleanupExternals P L σ)
    (input : TraceCleanupSolverInput P L) {s : TraceCleanupSolver P L σ}
    (h : Reachable E (mkSolver (σ := σ) input) s) : SubInv s := by
  obtain ⟨n, hn⟩ := h
  exact stepN_subInv E n _ s (subInv_mkSolver input) hn

theorem step_input (E : TraceCleanupExternals P L σ)
    {s s' : TraceCleanupSolver P L σ} (h : step E s = some s') :
    s'.input = s.input := by
  by_cases hsf : (s.solved || s.failed) = true
  · rw [step, if_pos hsf] at h
    obtain rfl := Option.some.inj h
    rfl
  · rw [step, if_neg hsf] at h
    cases hsub : s.activeSubSolver with
    | some u =>
      rw [_step_sub E s u hsub] at h
      split at h
      · obtain rfl := Option.some.inj h; rfl
      · split at h
        · obtain rfl := Option.some.inj h; rfl
        · obtain rfl := Option.some.inj h; rfl
    | none =>
      cases hph : s.pipelineStep with
      | untangling_traces =>
        rw [_step_untangle E s hsub hph] at h
        obtain rfl := Option.some.inj h
        rfl
      | minimizing_turns =>
        obtain ⟨inp, out, q, mp, ph0, act, sub, sv, fl⟩ := s
        simp only at hsub hph
        subst hsub; subst hph
        simp only [_step, _runMinimizeTurnsStep] at h
        split at h
        · obtain rfl := Option.some.inj h; rfl
        · obtain ⟨_, _, _, _, _, hin, _, _, _, _, _, _, _⟩ :=
            _processTrace_inv E _ s' _ h
          exact hin
      | balancing_l_shapes =>
        obtain ⟨inp, out, q, mp, ph0, act, sub, sv, fl⟩ := s
        simp only at hsub hph
        subst hsub; subst hph
        simp only [_step, _runBalanceLShapesStep] at h
        split at h
        · obtain rfl := Option.some.inj h; rfl
        · obtain ⟨_, _, _, _, _, hin, _, _, _, _, _, _, _⟩ :=
            _processTrace_inv E _ s' _ h
          exact hin

theorem stepN_input (E : TraceCleanupExternals P L σ) :
    ∀ (n : Nat) (s s' : TraceCleanupSolver P L σ),
      stepN E n s = some s' → s'.input = s.input := by
  intro n
  induction n with
  | zero =>
    intro s s' hs
    obtain rfl := Option.some.inj hs
    rfl
  | succ n ih =>
    intro s s' hs
    rw [stepN_succ] at hs
    cases hstep : step E s with
    | none => rw [hstep] at hs; cases hs
    | some t =>
      rw [hstep, Option.some_bind] at hs
      exact (ih t s' hs).trans (step_input E hstep)

theorem reachable_input (E : TraceCleanupExternals P L σ)
    (input : TraceCleanupSolverInput P L) {s : TraceCleanupSolver P L σ}
    (h : Reachable E (mkSolver (σ := σ) input) s) : s.input = input := by
  obtain ⟨n, hn⟩ := h
  exact stepN_input E n _ s hn

end TraceCleanupSolver

/-! ## Rectangle invariance, reseeding, exactly-once visitation -/

namespace TraceCleanupSolver

variable {P L σ : Type}

theorem step_preserves_rect (E : TraceCleanupExternals P L σ)
    {s s' : TraceCleanupSolver P L σ} (hsub : s.activeSubSolver = none)
    (hph : s.pipelineStep ≠ PipelineStep.untangling_traces)
    (h : step E s = some s') :
    s'.activeSubSolver = none ∧
    s'.pipelineStep ≠ PipelineStep.untangling_traces ∧
    ∀ id t, jsGet s.tracesMap id = some t →
      is4PointRectangle t.tracePath = true →
      jsGet s'.tracesMap id = some t := by
  by_cases hsf : (s.solved || s.failed) = true
  · rw [step, if_pos hsf] at h
    obtain rfl := Option.some.inj h
    exact ⟨hsub, hph, fun id t hget _ => hget⟩
  · rw [step, if_neg hsf] at h
    have hslot := _step_slot_none E hsub hph h
    refine ⟨hslot, ?_, ?_⟩
    · cases hphv : s.pipelineStep with
      | untangling_traces => exact absurd hphv hph
      | minimizing_turns =>
        obtain ⟨inp, out, q, mp, ph0, act, sub, sv, fl⟩ := s
        simp only at hsub hphv
        subst hsub; subst hphv
        simp only [_step, _runMinimizeTurnsStep] at h
        split at h
        · obtain rfl := Option.some.inj h; simp
        · obtain ⟨_, _, _, _, _, _, _, hph', _, _, _, _, _⟩ :=
            _processTrace_inv E _ s' _ h
          rw [hph']; simp
      | balancing_l_shapes =>
        obtain ⟨inp, out, q, mp, ph0, act, sub, sv, fl⟩ := s
        simp only at hsub hphv
        subst hsub; subst hphv
        simp only [_step, _runBalanceLShapesStep] at h
        split at h
        · obtain rfl := Option.some.inj h; simp
        · obtain ⟨_, _, _, _, _, _, _, hph', _, _, _, _, _⟩ :=
            _processTrace_inv E _ s' _ h
          rw [hph']; simp
    · intro id t hget hrect
      cases hphv : s.pipelineStep with
      | untangling_traces => exact absurd hphv hph
      | minimizing_turns =>
        obtain ⟨inp, out, q, mp, ph0, act, sub, sv, fl⟩ := s
        simp only at hsub hphv hget ⊢
        subst hsub; subst hphv
        simp only [_step, _runMinimizeTurnsStep] at h
        split at h
        · obtain rfl := Option.some.inj h; exact hget
        · obtain ⟨tid, rest, t0, hq, hget0, _, _, _, _, _, _, _, hdisj⟩ :=
            _processTrace_inv E _ s' _ h
          rcases hdisj with ⟨_, hmap, _⟩ | ⟨hnotrect, u, hmap, _⟩
          · rw [hmap]; exact hget
          · rw [hmap]
            by_cases hid : id = tid
            · subst hid
              rw [hget] at hget0
              obtain rfl := Option.some.inj hget0
              rw [hrect] at hnotrect
              simp at hnotrect
            · rw [jsGet_jsSet_ne _ _ _ _ hid]
              exact hget
      | balancing_l_shapes =>
        obtain ⟨inp, out, q, mp, ph0, act, sub, sv, fl⟩ := s
        simp only at hsub hphv hget ⊢
        subst hsub; subst hphv
        simp only [_step, _runBalanceLShapesStep] at h
        split at h
        · obtain rfl := Option.some.inj h; exact hget
        · obtain ⟨tid, rest, t0, hq, hget0, _, _, _, _, _, _, _, hdisj⟩ :=
            _processTrace_inv E _ s' _ h
          rcases hdisj with ⟨_, hmap, _⟩ | ⟨hnotrect, u, hmap, _⟩
          · rw [hmap]; exact hget
          · rw [hmap]
            by_cases hid : id = tid
            · subst hid
              rw [hget] at hget0
              obtain rfl := Option.some.inj hget0
              rw [hrect] at hnotrect
              simp at hnotrect
            · rw [jsGet_jsSet_ne _ _ _ _ hid]
              exact hget

/-- **C7.** Rectangle invariance: in the per-trace phases (no active
sub-solver, phase not `untangling_traces`), a trace whose polyline is an
axis-aligned 4-point rectangle keeps its map entry bit-identical across any
number of controller steps — its own processing short-circuits before the
transform, and other traces' processing writes only their own keys. -/
theorem rectangle_invariance (E : TraceCleanupExternals P L σ) :
    ∀ (n : Nat) (s s' : TraceCleanupSolver P L σ),
      s.activeSubSolver = none →
      s.pipelineStep ≠ PipelineStep.untangling_traces →
      stepN E n s = some s' →
      ∀ id t, jsGet s.tracesMap id = some t →
        is4PointRectangle t.tracePath = true →
        jsGet s'.tracesMap id = some t := by
  intro n
  induction n with
  | zero =>
    intro s s' _ _ hrun id t hget _
    obtain rfl := Option.some.inj hrun
    exact hget
  | succ n ih =>
    intro s s' hsub hph hrun id t hget hrect
    rw [stepN_succ] at hrun
    cases hstep : step E s with
    | none => rw [hstep] at hrun; cases hrun
    | some s1 =>
      rw [hstep, Option.some_bind] at hrun
      obtain ⟨hsub1, hph1, hpres⟩ := step_preserves_rect E hsub hph hstep
      exact ih s1 s' hsub1 hph1 hrun id t (hpres id t hget hrect) hrect

/-- Witness for C7 on the concrete rectangle/zig-zag input. -/
theorem rectangle_invariance_witness :
    jsGet sMinA1.tracesMap "r" = some tRect :=
  rectangle_invariance testExternals 1 sMinA sMinA1 rfl (by decide) rfl "r"
    tRect (by decide) (by decide)

/-- **C8.** Original-roster reseed: the constructor seeds the queue with the
input identifiers in input order, and when the `minimizing_turns` queue is
empty the controller moves to `balancing_l_shapes` and reseeds the queue from
the identifiers of the `allTraces` supplied at construction (the controller's
`input` field is constant along every run), not from the current trace set. -/
theorem reseed_from_original_roster (E : TraceCleanupExternals P L σ)
    (input : TraceCleanupSolverInput P L) (s : TraceCleanupSolver P L σ)
    (hreach : Reachable E (mkSolver (σ := σ) input) s)
    (h1 : s.activeSubSolver = none)
    (h2 : s.pipelineStep = PipelineStep.minimizing_turns)
    (h3 : s.traceIdQueue = []) (hs : s.solved = false)
    (hf : s.failed = false) :
    (mkSolver (σ := σ) input).traceIdQueue = traceIds input.allTraces ∧
    ∃ s', step E s = some s' ∧
      s'.pipelineStep = PipelineStep.balancing_l_shapes ∧
      s'.traceIdQueue = traceIds input.allTraces := by
  refine ⟨rfl, _, step_reseed E s h1 h2 h3 hs hf, rfl, ?_⟩
  have hin := reachable_input E input hreach
  simp [traceIds, hin]

/-- Witness for C8 on the empty-roster input. -/
theorem reseed_from_original_roster_witness :
    (mkSolver inpE : TraceCleanupSolver Unit Unit Unit).traceIdQueue =
        traceIds inpE.allTraces ∧
    ∃ s', step testExternals sMinE = some s' ∧
      s'.pipelineStep = PipelineStep.balancing_l_shapes ∧
      s'.traceIdQueue = traceIds inpE.allTraces :=
  reseed_from_original_roster testExternals inpE sMinE ⟨2, rfl⟩ rfl rfl rfl
    rfl rfl

/-- **C9.** Exactly-once visitation: from a per-trace phase start whose queue
has pairwise-distinct identifiers, the first `k` steps of the phase pop
exactly the first `k` queued identifiers, each at most once, and none of them
remains in the queue for the rest of the phase. -/
theorem exactly_once_visitation (E : TraceCleanupExternals P L σ)
    (s : TraceCleanupSolver P L σ) (k : Nat)
    (hsub : s.activeSubSolver = none)
    (hph : s.pipelineStep ≠ PipelineStep.untangling_traces)
    (hs : s.solved = false) (hf : s.failed = false)
    (hok : QueueOk s) (hnd : s.traceIdQueue.Nodup)
    (hk : k ≤ s.traceIdQueue.length) :
    ∃ s', stepN E k s = some s' ∧
      s'.pipelineStep = s.pipelineStep ∧
      s'.activeSubSolver = none ∧
      s'.traceIdQueue = s.traceIdQueue.drop k ∧
      (s.traceIdQueue.take k).Nodup ∧
      ∀ id ∈ s.traceIdQueue.take k, id ∉ s'.traceIdQueue := by
  obtain ⟨s', hrun, _, hphs, hsub', _, _, hq, _⟩ :=
    drain_partial E k s hsub hs hf hph hok hk
  refine ⟨s', hrun, hphs, hsub', hq, ?_, ?_⟩
  · exact List.Nodup.sublist (List.take_sublist _ _) hnd
  · intro id hid hmem
    rw [hq] at hmem
    exact List.disjoint_take_drop hnd le_rfl hid hmem

/-- Witness for C9 on the concrete rectangle/zig-zag input. -/
theorem exactly_once_visitation_witness :
    ∃ s', stepN testExternals 1 sMinA = some s' ∧
      s'.pipelineStep = sMinA.pipelineStep ∧
      s'.activeSubSolver = none ∧
      s'.traceIdQueue = sMinA.traceIdQueue.drop 1 ∧
      (sMinA.traceIdQueue.take 1).Nodup ∧
      ∀ id ∈ sMinA.traceIdQueue.take 1, id ∉ s'.traceIdQueue :=
  exactly_once_visitation testExternals sMinA 1 rfl (by decide) rfl rfl
    (by simp only [QueueOk]; decide) (by decide) (by decide)

end TraceCleanupSolver

/-! ## Phase ordering -/

namespace TraceCleanupSolver

variable {P L σ : Type}

/-- **C4.** Phase ordering along every `step` sequence from an initial
state: `balancing_l_shapes` is entered only from `minimizing_turns` with a
fully drained queue, `minimizing_turns` is entered only with the sub-solver
slot left empty, and the phase index never moves backwards. -/
theorem phase_ordering (E : TraceCleanupExternals P L σ)
    (input : TraceCleanupSolverInput P L) (s s' : TraceCleanupSolver P L σ)
    (hreach : Reachable E (mkSolver (σ := σ) input) s)
    (hstep : step E s = some s') :
    (s'.pipelineStep = PipelineStep.balancing_l_shapes →
      s.pipelineStep ≠ PipelineStep.balancing_l_shapes →
      s.pipelineStep = PipelineStep.minimizing_turns ∧ s.traceIdQueue = []) ∧
    (s'.pipelineStep = PipelineStep.minimizing_turns →
      s.pipelineStep ≠ PipelineStep.minimizing_turns →
      s'.activeSubSolver = none) ∧
    phaseIdx s.pipelineStep ≤ phaseIdx s'.pipelineStep := by
  have hinv : SubInv s := reachable_subInv E input hreach
  by_cases hsf : (s.solved || s.failed) = true
  · rw [step, if_pos hsf] at hstep
    obtain rfl := Option.some.inj hstep
    exact ⟨fun h1 h2 => absurd h1 h2, fun h1 h2 => absurd h1 h2, le_rfl⟩
  · rw [step, if_neg hsf] at hstep
    cases hsub : s.activeSubSolver with
    | some u =>
      have hph := hinv u hsub
      rw [_step_sub E s u hsub] at hstep
      split at hstep
      · obtain rfl := Option.some.inj hstep
        refine ⟨fun h1 _ => (nomatch h1), fun _ _ => rfl, ?_⟩
        rw [hph]
        exact Nat.zero_le _
      · split at hstep
        · obtain rfl := Option.some.inj hstep
          refine ⟨fun h1 _ => (nomatch h1), fun _ _ => rfl, ?_⟩
          rw [hph]
          exact Nat.zero_le _
        · obtain rfl := Option.some.inj hstep
          exact ⟨fun h1 _ => (nomatch hph.symm.trans h1),
            fun h1 _ => (nomatch hph.symm.trans h1), le_rfl⟩
    | none =>
      cases hph : s.pipelineStep with
      | untangling_traces =>
        rw [_step_untangle E s hsub hph] at hstep
        obtain rfl := Option.some.inj hstep
        have hph' : (_runUntangleTracesStep E s).pipelineStep =
            PipelineStep.untangling_traces := by
          simpa [_runUntangleTracesStep] using hph
        refine ⟨fun h1 _ => (nomatch hph'.symm.trans h1),
          fun h1 _ => (nomatch hph'.symm.trans h1), ?_⟩
        rw [hph']
      | minimizing_turns =>
        have hs : s.solved = false := by
          cases hv : s.solved
          · rfl
          · rw [hv] at hsf; simp at hsf
        have hf : s.failed = false := by
          cases hv : s.failed
          · rfl
          · rw [hv] at hsf; simp at hsf
        cases hq : s.traceIdQueue with
        | nil =>
          have hre := step_reseed E s hsub hph hq hs hf
          rw [step_of_running E hs hf] at hre
          rw [hre] at hstep
          obtain rfl := Option.some.inj hstep
          exact ⟨fun _ _ => ⟨rfl, rfl⟩, fun h1 _ => (nomatch h1),
            (by decide : phaseIdx PipelineStep.minimizing_turns ≤
              phaseIdx PipelineStep.balancing_l_shapes)⟩
        | cons a rest =>
          have hdis := _step_dispatch_process E s hsub (by rw [hph]; simp) hq
          rw [hdis] at hstep
          obtain ⟨_, _, _, _, _, _, _, hph', _, _, _, _, _⟩ :=
            _processTrace_inv E _ s' _ hstep
          refine ⟨fun h1 _ => (nomatch (hph'.trans hph).symm.trans h1),
            fun _ h2 => absurd rfl h2, ?_⟩
          exact le_of_eq (congrArg phaseIdx (hph'.trans hph).symm)
      | balancing_l_shapes =>
        have hs : s.solved = false := by
          cases hv : s.solved
          · rfl
          · rw [hv] at hsf; simp at hsf
        have hf : s.failed = false := by
          cases hv : s.failed
          · rfl
          · rw [hv] at hsf; simp at hsf
        cases hq : s.traceIdQueue with
        | nil =>
          have hso := step_setSolved E s hsub hph hq hs hf
          rw [step_of_running E hs hf] at hso
          rw [hso] at hstep
          obtain rfl := Option.some.inj hstep
          refine ⟨fun _ h2 => absurd rfl h2,
            fun h1 _ => (nomatch hph.symm.trans h1), ?_⟩
          exact le_of_eq (congrArg phaseIdx hph.symm)
        | cons a rest =>
          have hdis := _step_dispatch_process E s hsub (by rw [hph]; simp) hq
          rw [hdis] at hstep
          obtain ⟨_, _, _, _, _, _, _, hph', _, _, _, _, _⟩ :=
            _processTrace_inv E _ s' _ hstep
          refine ⟨fun _ h2 => absurd rfl h2,
            fun h1 _ => (nomatch (hph'.trans hph).symm.trans h1), ?_⟩
          exact le_of_eq (congrArg phaseIdx (hph'.trans hph).symm)

/-- Witness for C4: the first step from the initial state fills the
sub-solver slot and keeps the phase index non-decreasing. -/
theorem phase_ordering_witness :
    phaseIdx (mkSolver inpA : TraceCleanupSolver Unit Unit Unit).pipelineStep
      ≤ phaseIdx s1A.pipelineStep :=
  (phase_ordering testExternals inpA (mkSolver inpA) s1A ⟨0, rfl⟩ rfl).2.2

end TraceCleanupSolver

/-! ## Failure resilience and termination -/

namespace TraceCleanupSolver

variable {P L σ : Type}

/-- **C3.** Sub-solver failure resilience: with a sub-solver that always
reports `failed` and never `solved`, two steps land in `minimizing_turns`
with the pre-untangle trace map and output list carried forward unchanged
and no error flag raised, and the pipeline then runs to the terminal
`solved` state in `2·n + 4` total steps for `n` input traces. -/
theorem subsolver_failure_resilience (E : TraceCleanupExternals P L σ)
    (input : TraceCleanupSolverInput P L)
    (hsolv : ∀ u : σ, E.subSolver.solved u = false)
    (hfail : ∀ u : σ, E.subSolver.failed u = true) :
    ∃ s2, stepN E 2 (mkSolver (σ := σ) input) = some s2 ∧
      s2.pipelineStep = PipelineStep.minimizing_turns ∧
      s2.activeSubSolver = none ∧
      s2.tracesMap = (mkSolver (σ := σ) input).tracesMap ∧
      s2.outputTraces = input.allTraces ∧
      ∃ s', stepN E (2 * input.allTraces.length + 4)
          (mkSolver (σ := σ) input) = some s' ∧
        s'.solved = true ∧ s'.failed = false := by
  have hstep1 : step E (mkSolver (σ := σ) input) =
      some (_runUntangleTracesStep E (mkSolver (σ := σ) input)) := rfl
  obtain ⟨s2, hstep2, hsub2, hph2, hin2, hq2, hsv2, hfl2, hdisj⟩ :=
    subsolver_exit E _ (_runUntangleTracesStep E (mkSolver (σ := σ) input))
      rfl rfl rfl (by simp [SubSolverSpec.terminal, hsolv, hfail])
  have hmapout : s2.tracesMap = (mkSolver (σ := σ) input).tracesMap ∧
      s2.outputTraces = input.allTraces := by
    rcases hdisj with h | ⟨v, hv, _⟩
    · exact h
    · rw [hsolv v] at hv
      simp at hv
  have hrun2 : stepN E 2 (mkSolver (σ := σ) input) = some s2 := by
    rw [stepN_succ, hstep1, Option.some_bind, stepN_succ, hstep2,
      Option.some_bind]
    rfl
  have hqok : QueueOk s2 := by
    intro id hid
    have hid' : id ∈ input.allTraces.map (·.mspPairId) := by
      rw [hq2] at hid
      exact hid
    rw [hmapout.1]
    exact (jsHas_jsFromList _ _).mpr
      (by simpa [List.map_map, Function.comp] using hid')
  have hrok : RosterOk s2 := by
    intro id hid
    rw [hin2] at hid
    exact hqok id (by rw [hq2]; exact hid)
  obtain ⟨s', hrun', hsolved, hfailed⟩ :=
    run_from_minimizing E s2 hsub2 hph2 hsv2 hfl2 hqok hrok
  have hlen1 : s2.traceIdQueue.length = input.allTraces.length := by
    rw [hq2]
    simp [_runUntangleTracesStep, mkSolver]
  have hlen2 : (traceIds s2.input.allTraces).length =
      input.allTraces.length := by
    rw [hin2]
    simp [_runUntangleTracesStep, mkSolver, traceIds]
  have hcount : s2.traceIdQueue.length + 1 +
      (traceIds s2.input.allTraces).length + 1 =
      2 * input.allTraces.length + 2 := by
    rw [hlen1, hlen2]
    omega
  rw [hcount] at hrun'
  have hfull := stepN_trans E hrun2 hrun'
  have h24 : 2 + (2 * input.allTraces.length + 2) =
      2 * input.allTraces.length + 4 := by omega
  rw [h24] at hfull
  exact ⟨s2, hrun2, hph2, hsub2, hmapout.1, hmapout.2,
    s', hfull, hsolved, hfailed⟩

/-- Witness for C3 on the concrete rectangle/zig-zag input with the
always-failing sub-solver instance. -/
theorem subsolver_failure_resilience_witness :
    ∃ s2, stepN testExternals 2 (mkSolver inpA) = some s2 ∧
      s2.pipelineStep = PipelineStep.minimizing_turns ∧
      s2.activeSubSolver = none ∧
      s2.tracesMap = (mkSolver (σ := Unit) inpA).tracesMap ∧
      s2.outputTraces = inpA.allTraces ∧
      ∃ s', stepN testExternals (2 * inpA.allTraces.length + 4)
          (mkSolver inpA) = some s' ∧
        s'.solved = true ∧ s'.failed = false :=
  subsolver_failure_resilience testExternals inpA (fun _ => rfl)
    (fun _ => rfl)

/-- **C5.** Forward progress / termination: for every finite input, a
sub-solver that reaches a terminal outcome in finitely many of its own steps
and whose solved output covers the original identifier roster (the spec's
"revised full trace set" contract) lets repeated `step` calls reach the
terminal `solved` state after finitely many calls. -/
theorem pipeline_terminates (E : TraceCleanupExternals P L σ)
    (input : TraceCleanupSolverInput P L)
    (hterm : ∃ j, E.subSolver.terminal
        (E.subSolver.step^[j + 1] (initialSubState E input)) = true)
    (hout : ∀ v, E.subSolver.solved v = true →
        ∀ id ∈ traceIds input.allTraces,
          id ∈ traceIds (E.subSolver.getOutput v)) :
    ∃ N s', stepN E N (mkSolver (σ := σ) input) = some s' ∧
      s'.solved = true := by
  obtain ⟨j, hj⟩ := hterm
  have hstep1 : step E (mkSolver (σ := σ) input) =
      some (_runUntangleTracesStep E (mkSolver (σ := σ) input)) := rfl
  have hrun1 : stepN E 1 (mkSolver (σ := σ) input) =
      some (_runUntangleTracesStep E (mkSolver (σ := σ) input)) := by
    rw [stepN_succ, hstep1]
    rfl
  obtain ⟨m, s2, hm, hrun2, hsub2, hph2, hin2, hq2, hsv2, hfl2, hdisj⟩ :=
    subsolver_run E j (initialSubState E input)
      (_runUntangleTracesStep E (mkSolver (σ := σ) input)) rfl rfl rfl hj
  have hqok : QueueOk s2 := by
    intro id hid
    have hid' : id ∈ traceIds input.allTraces := by
      rw [hq2] at hid
      exact hid
    rcases hdisj with ⟨hmap, _⟩ | ⟨v, hv, _, hmap⟩
    · rw [hmap]
      exact (jsHas_jsFromList _ _).mpr
        (by simpa [traceIds, List.map_map, Function.comp] using hid')
    · rw [hmap]
      exact (jsHas_jsFromList _ _).mpr
        (by simpa [traceIds, List.map_map, Function.comp] using
          hout v hv id hid')
  have hrok : RosterOk s2 := by
    intro id hid
    rw [hin2] at hid
    exact hqok id (by rw [hq2]; exact hid)
  obtain ⟨s3, hrun3, hsolved, _⟩ :=
    run_from_minimizing E s2 hsub2 hph2 hsv2 hfl2 hqok hrok
  exact ⟨1 + m + (s2.traceIdQueue.length + 1 +
      (traceIds s2.input.allTraces).length + 1), s3,
    stepN_trans E (stepN_trans E hrun1 hrun2) hrun3, hsolved⟩

/-- Witness for C5 on the concrete rectangle/zig-zag input with the
always-failing (hence immediately terminal) sub-solver instance. -/
theorem pipeline_terminates_witness :
    ∃ N s', stepN testExternals N (mkSolver inpA) = some s' ∧
      s'.solved = true :=
  pipeline_terminates testExternals inpA ⟨0, rfl⟩
    (fun v hv => absurd hv (by simp [testExternals, alwaysFailSub]))

end TraceCleanupSolver

/-! ## One bounded unit of work per step -/

namespace TraceCleanupSolver

variable {P L σ : Type}

/-- **C6.** Bounded unit of work: every non-terminal `step` call whose
pending queue head (if it is about to be popped) is present in the map
performs exactly one of the three units — one sub-solver step, one per-trace
processing (at most that trace's map entry changes; a rectangle
short-circuit changes nothing), or one phase-boundary bookkeeping action
(sub-solver instantiation, queue reseed, or setting the solved flag) — and
the units exclude each other. -/
theorem step_single_unit_of_work (E : TraceCleanupExternals P L σ)
    (s : TraceCleanupSolver P L σ) (hs : s.solved = false)
    (hf : s.failed = false)
    (hok : ∀ targetId rest, s.traceIdQueue = targetId :: rest →
      jsHas s.tracesMap targetId = true) :
    ∃ s', step E s = some s' ∧
      ((SubSolverUnit E s s' ∧ ¬PerTraceUnit s s' ∧
        ¬BookkeepingUnit E s s') ∨
       (PerTraceUnit s s' ∧ ¬SubSolverUnit E s s' ∧
        ¬BookkeepingUnit E s s') ∨
       (BookkeepingUnit E s s' ∧ ¬SubSolverUnit E s s' ∧
        ¬PerTraceUnit s s')) := by
  have hstep : step E s = _step E s := step_of_running E hs hf
  cases hsub : s.activeSubSolver with
  | some u =>
    have hnotPer : ∀ s' : TraceCleanupSolver P L σ, ¬PerTraceUnit s s' := by
      intro s' hper
      rw [hper.1] at hsub
      exact Option.noConfusion hsub
    have hnotBook : ∀ s' : TraceCleanupSolver P L σ,
        ¬BookkeepingUnit E s s' := by
      intro s' hbook
      rw [hbook.1] at hsub
      exact Option.noConfusion hsub
    rw [_step_sub E s u hsub] at hstep
    split at hstep
    · exact ⟨_, hstep, Or.inl ⟨⟨u, hsub, rfl, rfl, rfl, rfl, rfl,
        Or.inr ⟨rfl, rfl⟩⟩, hnotPer _, hnotBook _⟩⟩
    · split at hstep
      · exact ⟨_, hstep, Or.inl ⟨⟨u, hsub, rfl, rfl, rfl, rfl, rfl,
          Or.inr ⟨rfl, rfl⟩⟩, hnotPer _, hnotBook _⟩⟩
      · exact ⟨_, hstep, Or.inl ⟨⟨u, hsub, rfl, rfl, rfl, rfl, rfl,
          Or.inl ⟨rfl, rfl, rfl, rfl⟩⟩, hnotPer _, hnotBook _⟩⟩
  | none =>
    have hnotSub : ∀ s' : TraceCleanupSolver P L σ,
        ¬SubSolverUnit E s s' := by
      intro s' hsubu
      obtain ⟨u, hu, _⟩ := hsubu
      rw [hsub] at hu
      exact Option.noConfusion hu
    cases hph : s.pipelineStep with
    | untangling_traces =>
      rw [_step_untangle E s hsub hph] at hstep
      refine ⟨_, hstep, Or.inr (Or.inr ⟨⟨hsub, rfl, rfl, rfl, rfl,
        Or.inl ⟨hph, rfl⟩⟩, hnotSub _, ?_⟩)⟩
      intro hper
      rcases hper.2.1 with h | h
      · exact (nomatch hph.symm.trans h)
      · exact (nomatch hph.symm.trans h)
    | minimizing_turns =>
      cases hq : s.traceIdQueue with
      | nil =>
        have hre := step_reseed E s hsub hph hq hs hf
        refine ⟨_, hre, Or.inr (Or.inr ⟨⟨hsub, rfl, rfl, rfl, rfl,
          Or.inr (Or.inl ⟨hph, hq, rfl⟩)⟩, hnotSub _, ?_⟩)⟩
        intro hper
        obtain ⟨_, _, id, rest, hq', _⟩ := hper
        rw [hq] at hq'
        exact List.noConfusion hq'
      | cons a rest =>
        have hhas' : (jsGet s.tracesMap a).isSome = true := hok a rest hq
        obtain ⟨t, ht⟩ := Option.isSome_iff_exists.mp hhas'
        obtain ⟨s1, hp, hin, hq1, hph1, hsub1, hact1, hsv1, hfl1, _⟩ :=
          _processTrace_some E s s.pipelineStep hq ht
        have hdis := _step_dispatch_process E s hsub (by rw [hph]; simp) hq
        have hstep' : step E s = some s1 := by rw [hstep, hdis, hp]
        obtain ⟨tid, rest', t0, hqq, _, _, _, _, _, _, _, _, hdisj⟩ :=
          _processTrace_inv E s s1 _ hp
        rw [hq] at hqq
        obtain ⟨h1, h2⟩ := List.cons.inj hqq
        subst h1
        subst h2
        refine ⟨s1, hstep', Or.inr (Or.inl ⟨⟨hsub, Or.inl hph, a, rest,
          hq, hq1, hph1, hsub1.trans hsub, hsv1, hfl1, hin, ?_⟩,
          hnotSub _, ?_⟩)⟩
        · intro k hk
          rcases hdisj with ⟨_, hmap, _⟩ | ⟨_, u', hmap, _⟩
          · rw [hmap]
          · rw [hmap]
            exact jsGet_jsSet_ne _ _ _ _ hk
        · intro hbook
          rcases hbook.2.2.2.2.2 with ⟨hphu, _⟩ | ⟨_, hqnil, _⟩ |
            ⟨hphb, _, _⟩
          · exact (nomatch hph.symm.trans hphu)
          · rw [hq] at hqnil
            exact List.noConfusion hqnil
          · exact (nomatch hph.symm.trans hphb)
    | balancing_l_shapes =>
      cases hq : s.traceIdQueue with
      | nil =>
        have hso := step_setSolved E s hsub hph hq hs hf
        refine ⟨_, hso, Or.inr (Or.inr ⟨⟨hsub, rfl, rfl, rfl, rfl,
          Or.inr (Or.inr ⟨hph, hq, rfl⟩)⟩, hnotSub _, ?_⟩)⟩
        intro hper
        obtain ⟨_, _, id, rest, hq', _⟩ := hper
        rw [hq] at hq'
        exact List.noConfusion hq'
      | cons a rest =>
        have hhas' : (jsGet s.tracesMap a).isSome = true := hok a rest hq
        obtain ⟨t, ht⟩ := Option.isSome_iff_exists.mp hhas'
        obtain ⟨s1, hp, hin, hq1, hph1, hsub1, hact1, hsv1, hfl1, _⟩ :=
          _processTrace_some E s s.pipelineStep hq ht
        have hdis := _step_dispatch_process E s hsub (by rw [hph]; simp) hq
        have hstep' : step E s = some s1 := by rw [hstep, hdis, hp]
        obtain ⟨tid, rest', t0, hqq, _, _, _, _, _, _, _, _, hdisj⟩ :=
          _processTrace_inv E s s1 _ hp
        rw [hq] at hqq
        obtain ⟨h1, h2⟩ := List.cons.inj hqq
        subst h1
        subst h2
        refine ⟨s1, hstep', Or.inr (Or.inl ⟨⟨hsub, Or.inr hph, a, rest,
          hq, hq1, hph1, hsub1.trans hsub, hsv1, hfl1, hin, ?_⟩,
          hnotSub _, ?_⟩)⟩
        · intro k hk
          rcases hdisj with ⟨_, hmap, _⟩ | ⟨_, u', hmap, _⟩
          · rw [hmap]
          · rw [hmap]
            exact jsGet_jsSet_ne _ _ _ _ hk
        · intro hbook
          rcases hbook.2.2.2.2.2 with ⟨hphu, _⟩ | ⟨hphm, _, _⟩ |
            ⟨_, hqnil, _⟩
          · exact (nomatch hph.symm.trans hphu)
          · exact (nomatch hph.symm.trans hphm)
          · rw [hq] at hqnil
            exact List.noConfusion hqnil

/-- Witness for C6: the first call on the concrete initial state performs
the sub-solver-instantiation bookkeeping unit. -/
theorem step_single_unit_of_work_witness :
    ∃ s', step testExternals (mkSolver inpA) = some s' ∧
      ((SubSolverUnit testExternals (mkSolver inpA) s' ∧
        ¬PerTraceUnit (mkSolver inpA) s' ∧
        ¬BookkeepingUnit testExternals (mkSolver inpA) s') ∨
       (PerTraceUnit (mkSolver inpA) s' ∧
        ¬SubSolverUnit testExternals (mkSolver inpA) s' ∧
        ¬BookkeepingUnit testExternals (mkSolver inpA) s') ∨
       (BookkeepingUnit testExternals (mkSolver inpA) s' ∧
        ¬SubSolverUnit testExternals (mkSolver inpA) s' ∧
        ¬PerTraceUnit (mkSolver inpA) s')) :=
  step_single_unit_of_work testExternals (mkSolver inpA) rfl rfl
    (fun targetId rest hq => by
      have hq' : "r" :: ["z"] = targetId :: rest := hq
      obtain ⟨h1, _⟩ := List.cons.inj hq'
      rw [← h1]
      decide)

end TraceCleanupSolver

/-! ## The visualization accessor: rounding faithfulness, crashes, mutation -/

theorem jsRoundTimes100_eq_floor (q : ℚ) :
    jsRoundTimes100 q = ⌊(q * 100 + 1/2 : ℚ)⌋ := by
  have hden : (q.den : ℚ) ≠ 0 := Nat.cast_ne_zero.mpr q.den_nz
  have hval : (q * 100 + 1/2 : ℚ) =
      ((200 * q.num + (q.den : ℤ) : ℤ) : ℚ) / ((2 * q.den : ℕ) : ℚ) := by
    conv_lhs => rw [← Rat.num_div_den q]
    push_cast
    field_simp
    ring
  have hcast : ((2 * q.den : ℕ) : ℤ) = 2 * (q.den : ℤ) := by push_cast; ring
  rw [jsRoundTimes100, hval, Rat.floor_intCast_div_natCast, hcast,
    Int.fdiv_eq_ediv _ (by omega)]

theorem jsGet_mem {α : Type} (m : List (String × α)) (k : String) (v : α)
    (h : jsGet m k = some v) : (k, v) ∈ m := by
  induction m with
  | nil => simp [jsGet] at h
  | cons kv rest ih =>
    obtain ⟨k0, v0⟩ := kv
    by_cases h0 : k0 = k
    · subst h0
      simp only [jsGet, if_true, eq_self_iff_true, Option.some.injEq] at h
      subst h
      exact List.mem_cons_self _ _
    · simp only [jsGet, if_neg h0] at h
      exact List.mem_cons_of_mem _ (ih h)

namespace TraceCleanupSolver

variable {P L σ : Type}

theorem zenithMergeFold_some (key : SolvedTracePath → Option String)
    (hkey : ∀ t, t.tracePath ≠ [] → (key t).isSome = true) :
    ∀ (ts : List SolvedTracePath) (m : List (String × SolvedTracePath)),
      (∀ t ∈ ts, t.tracePath ≠ []) →
      (∀ kv ∈ m, kv.2.tracePath ≠ []) →
      ∃ m', zenithMergeFold key m ts = some m' ∧
        ∀ kv ∈ m', kv.2.tracePath ≠ [] := by
  intro ts
  induction ts with
  | nil =>
    intro m _ hm
    exact ⟨m, rfl, hm⟩
  | cons t rest ih =>
    intro m hts hm
    have hne : t.tracePath ≠ [] := hts t (List.mem_cons_self _ _)
    obtain ⟨k, hk⟩ := Option.isSome_iff_exists.mp (hkey t hne)
    have hrest : ∀ t' ∈ rest, t'.tracePath ≠ [] :=
      fun t' ht' => hts t' (List.mem_cons_of_mem _ ht')
    cases hget : jsGet m k with
    | some existing =>
      have hex : existing.tracePath ≠ [] :=
        hm (k, existing) (jsGet_mem m k existing hget)
      have hm' : ∀ kv ∈ jsSet m k
          { existing with
              tracePath := existing.tracePath ++ t.tracePath.drop 1 },
          kv.2.tracePath ≠ [] := by
        intro kv hkv
        rcases jsSet_mem m k _ kv hkv with h | h
        · exact hm kv h
        · rw [h]
          intro hc
          exact hex (List.append_eq_nil.mp hc).1
      obtain ⟨m', hm'', hv⟩ := ih _ hrest hm'
      refine ⟨m', ?_, hv⟩
      simp only [zenithMergeFold, hk, hget]
      exact hm''
    | none =>
      have hm' : ∀ kv ∈ jsSet m k t, kv.2.tracePath ≠ [] := by
        intro kv hkv
        rcases jsSet_mem m k t kv hkv with h | h
        · exact hm kv h
        · rw [h]; exact hne
      obtain ⟨m', hm'', hv⟩ := ih _ hrest hm'
      refine ⟨m', ?_, hv⟩
      simp only [zenithMergeFold, hk, hget]
      exact hm''

theorem visualize_isSome (E : TraceCleanupExternals P L σ)
    (s : TraceCleanupSolver P L σ) (h1 : s.activeSubSolver = none)
    (h2 : ∀ t ∈ s.outputTraces, t.tracePath ≠ []) :
    (visualize E s).isSome = true := by
  have hkey1 : ∀ t : SolvedTracePath, t.tracePath ≠ [] →
      (zenithKey1 t).isSome = true := by
    intro t ht
    cases hp : t.tracePath with
    | nil => exact absurd hp ht
    | cons p ps => simp [zenithKey1, hp]
  have hkey2 : ∀ t : SolvedTracePath, t.tracePath ≠ [] →
      (zenithKey2 t).isSome = true := by
    intro t ht
    cases hh : t.tracePath.head? with
    | none =>
      rw [List.head?_eq_none_iff] at hh
      exact absurd hh ht
    | some p0 =>
      cases hl : t.tracePath.getLast? with
      | none =>
        rw [List.getLast?_eq_none_iff] at hl
        exact absurd hl ht
      | some pl => simp [zenithKey2, hh, hl]
  obtain ⟨m1, hm1, hv1⟩ :=
    zenithMergeFold_some zenithKey1 hkey1 s.outputTraces [] h2 (by simp)
  have hv1' : ∀ t ∈ jsValues m1, t.tracePath ≠ [] := by
    intro t ht
    obtain ⟨kv, hkv, rfl⟩ := List.mem_map.mp ht
    exact hv1 kv hkv
  obtain ⟨m2, hm2, _⟩ :=
    zenithMergeFold_some zenithKey2 hkey2 (jsValues m1) [] hv1' (by simp)
  obtain ⟨inp, out, q, mp, ph0, act, sub, sv, fl⟩ := s
  simp only at h1 hm1 hm2 ⊢
  subst h1
  simp only [visualize, hm1, hm2]
  rfl

end TraceCleanupSolver

namespace TraceCleanupSolver

/-- **C1 (refuted at a concrete state — code bug).** `visualize()` is not
purely diagnostic: on the two-trace initial state over `inpB` (same net,
same horizontal axis) a single `visualize` call replaces the two output
traces by one merged trace, so the trace list `getOutput()` returns after
the call differs from the one before it (the claim asserts they are always
equal). -/
theorem visualize_changes_getOutput :
    ((visualize testExternals (mkSolver inpB)).map fun gs =>
        getOutput gs.2) = some [tHMerged] ∧
    getOutput (mkSolver (σ := Unit) inpB) = [tH1, tH2] ∧
    (some [tHMerged] : Option (List SolvedTracePath)) ≠ some [tH1, tH2] :=
  ⟨by decide, by decide, by decide⟩

/-- **C2 (refuted at a concrete state — code bug).** Identifier stability
fails once `visualize()` runs: `inpC` has the two distinct identifiers
`p`, `q`, but after one `visualize` call on its initial state the output
trace set retains only `p` — the merge block inside the accessor dropped
trace `q`. -/
theorem visualize_drops_trace_identifiers :
    (traceIds inpC.allTraces).Nodup ∧
    ((visualize testExternals (mkSolver inpC)).map fun gs =>
        traceIds (getOutput gs.2)) = some ["p"] ∧
    traceIds inpC.allTraces = ["p", "q"] :=
  ⟨by decide, by decide, by decide⟩

/-- **C10.** Visualize indexing safety: with no active sub-solver, when
every output trace has a non-empty polyline, the unguarded first/last point
accesses inside `visualize` are all in bounds (the call returns a scene
graph rather than crashing); and there is a state holding a trace with an
empty polyline on which the access is out of bounds (the call crashes). -/
theorem visualize_indexing_safety {P L σ : Type}
    (E : TraceCleanupExternals P L σ) (s : TraceCleanupSolver P L σ)
    (h1 : s.activeSubSolver = none)
    (h2 : ∀ t ∈ s.outputTraces, t.tracePath ≠ []) :
    (visualize E s).isSome = true ∧
    ∃ s2 : TraceCleanupSolver Unit Unit Unit,
      s2.activeSubSolver = none ∧
      (∃ t ∈ s2.outputTraces, t.tracePath = []) ∧
      visualize testExternals s2 = none :=
  ⟨visualize_isSome E s h1 h2,
   mkSolver inpD, rfl, ⟨tEmpty, by decide, rfl⟩, rfl⟩

/-- Witness for C10 on the concrete rectangle/zig-zag state, whose polylines
are all non-empty. -/
theorem visualize_indexing_safety_witness :
    (visualize testExternals (mkSolver inpA)).isSome = true :=
  (visualize_indexing_safety testExternals (mkSolver inpA) rfl
    (by decide)).1

end TraceCleanupSolver
